import Mathlib

/-!
# Pagination (windmill-react-ui, `src/Pagination.js`)

A shallow embedding of the `Pagination` React component: the page-window
effect, the previous/next/page-button handlers, the `onChange` effect and the
range label, followed by the properties proved about them.

Numbers are modelled as mathematical integers: the props and the active page
are integers that a double holds exactly. The page count, the window and the
handlers stay within such integers. The product in the range label can pass
`2 ^ 53`, so the label is also given in double arithmetic (`rangeStartDouble`,
`rangeEndDouble`), every operation rounded to the nearest double.
React's hooks are modelled by explicit state passing: `useState` cells are the
fields of `State`, and an effect with dependency list `[activePage]` runs on
mount and after every commit in which `activePage` differs from its value at
the previous commit.
-/

namespace Pagination

/-! ## Data model -/

/-- An element of the `pages` array: a page number or the string `'...'`. -/
inductive PageEntry where
  | page (n : Int)
  | ellipsis
  deriving DecidableEq, Repr

/-- The props the logic reads (`label` and the identity of `onChange` play no
part in it; calls of `onChange` are recorded as outputs of the transitions). -/
structure Props where
  totalResults : Int
  resultsPerPage : Int
  deriving DecidableEq, Repr

/-- The two `useState` cells of the component. -/
structure State where
  pages : List PageEntry
  activePage : Int
  deriving DecidableEq, Repr

/-- The constant `TOTAL_PAGES = Math.ceil(totalResults / resultsPerPage)`, for a
non-zero `resultsPerPage`: the ceiling of the exact quotient, computed as the
negated floor of the negated quotient (see `TOTAL_PAGES_eq_ceil`). A zero
`resultsPerPage` makes the JavaScript quotient non-finite and is outside the
model. -/
def TOTAL_PAGES (props : Props) : Int :=
  -(Int.fdiv (-props.totalResults) props.resultsPerPage)

/-- The constant `FIRST_PAGE = 1`. -/
def FIRST_PAGE : Int := 1

/-- The constant `LAST_PAGE = TOTAL_PAGES`, as a function of the value of
`TOTAL_PAGES` in the current render. -/
def LAST_PAGE (totalPages : Int) : Int := totalPages

/-- The constant `MAX_VISIBLE_PAGES = 7`. -/
def MAX_VISIBLE_PAGES : Int := 7

/-! ## The page-window effect -/

/-- The array handed to `setPages` by the first `useEffect`, as a function of
the `TOTAL_PAGES` and `activePage` it reads.
`Array.from({ length: n }).map((_, i) => i + 1)` has `n` elements for `n ≥ 0`
and none for a negative `n`. -/
def pagesEffect (totalPages activePage : Int) : List PageEntry :=
  if totalPages ≤ MAX_VISIBLE_PAGES then
    (List.range totalPages.toNat).map (fun (i : Nat) => PageEntry.page ((i : Int) + 1))
  else if activePage < 5 then
    [.page 1, .page 2, .page 3, .page 4, .page 5, .ellipsis, .page totalPages]
  else if activePage ≥ 5 ∧ activePage < totalPages - 3 then
    [.page 1, .ellipsis, .page (activePage - 1), .page activePage, .page (activePage + 1),
      .ellipsis, .page totalPages]
  else
    [.page 1, .ellipsis, .page (totalPages - 4), .page (totalPages - 3),
      .page (totalPages - 2), .page (totalPages - 1), .page totalPages]

/-! ## Handlers -/

/-- The function `handlePreviousClick`: `none` when it returns early, otherwise the
argument of its `setActivePage` call. -/
def handlePreviousClick (activePage : Int) : Option Int :=
  if activePage = FIRST_PAGE then none else some (activePage - 1)

/-- The function `handleNextClick`: `none` when it returns early, otherwise the
argument of its `setActivePage` call. -/
def handleNextClick (lastPage activePage : Int) : Option Int :=
  if activePage = lastPage then none else some (activePage + 1)

/-- The `onClick` of the `PageButton` rendered for the entry `p`:
`() => setActivePage(p)`. -/
def pageButtonClick (p : Int) : Option Int := some p

/-! ## Rendering and effects -/

/-- Both effects have dependency list `[activePage]`. After a commit they run
when there is no previous commit (mount) or the previous commit's `activePage`
differs from the current one: the first stores the recomputed window with
`setPages`, the second calls `onChange(activePage)`. Here `totalPages` is the
value of `TOTAL_PAGES` in the render being committed, the only thing the
handlers and effects read of the props. The result is the state after the
effects together with the arguments `onChange` was called with. -/
def runEffects (totalPages : Int) (prevActivePage : Option Int) (s : State) :
    State × List Int :=
  if prevActivePage = some s.activePage then (s, [])
  else ({ s with pages := pagesEffect totalPages s.activePage }, [s.activePage])

/-- First render: `useState([])`, `useState(1)`, then the effects. -/
def mount (totalPages : Int) : State × List Int :=
  runEffects totalPages none { pages := [], activePage := 1 }

/-- What a handler's outcome does to the component: no `setActivePage` call
leaves it alone, `setActivePage(v)` stores `v`, re-renders and runs the
effects against the previous commit's `activePage`. -/
def dispatch (totalPages : Int) (s : State) (update : Option Int) : State × List Int :=
  match update with
  | none => (s, [])
  | some v => runEffects totalPages (some s.activePage) { s with activePage := v }

/-- The parent re-renders the component with new props, whose `TOTAL_PAGES` is
`totalPages`: the state cells are kept and the effects are checked against the
unchanged `activePage`. -/
def rerender (totalPages : Int) (s : State) : State × List Int :=
  runEffects totalPages (some s.activePage) s

/-- User interactions: the two navigation buttons and a page button. -/
inductive Event where
  | previous
  | next
  | jumpTo (p : Int)
  deriving DecidableEq, Repr

/-- One interaction while the props give `TOTAL_PAGES = totalPages`. -/
def step (totalPages : Int) (s : State) : Event → State × List Int
  | .previous => dispatch totalPages s (handlePreviousClick s.activePage)
  | .next => dispatch totalPages s (handleNextClick (LAST_PAGE totalPages) s.activePage)
  | .jumpTo p => dispatch totalPages s (pageButtonClick p)

/-- States reachable while the props keep `TOTAL_PAGES = totalPages`: after
mount, and after any click on a navigation button or on a page button that is
rendered, i.e. whose number is an entry of the stored `pages`. -/
inductive Reachable (totalPages : Int) : State → Prop where
  | mount : Reachable totalPages (mount totalPages).1
  | previous {s : State} :
      Reachable totalPages s → Reachable totalPages (step totalPages s .previous).1
  | next {s : State} :
      Reachable totalPages s → Reachable totalPages (step totalPages s .next).1
  | jumpTo {s : State} (p : Int) : Reachable totalPages s → PageEntry.page p ∈ s.pages →
      Reachable totalPages (step totalPages s (.jumpTo p)).1

/-- States reachable from mount by the navigation buttons only. -/
inductive NavReachable (totalPages : Int) : State → Prop where
  | mount : NavReachable totalPages (mount totalPages).1
  | previous {s : State} :
      NavReachable totalPages s → NavReachable totalPages (step totalPages s .previous).1
  | next {s : State} :
      NavReachable totalPages s → NavReachable totalPages (step totalPages s .next).1

/-! ## Range label -/

/-- First number of the label, `activePage * resultsPerPage - resultsPerPage + 1`,
read over the integers; `rangeStartDouble` is the same expression as the
program evaluates it, in doubles. -/
def rangeStart (props : Props) (activePage : Int) : Int :=
  activePage * props.resultsPerPage - props.resultsPerPage + 1

/-- Second number of the label,
`Math.min.apply(this, [activePage * resultsPerPage, totalResults])`, read over
the integers; `rangeEndDouble` is the same expression in doubles. -/
def rangeEnd (props : Props) (activePage : Int) : Int :=
  min (activePage * props.resultsPerPage) props.totalResults

/-- The range part of the label: the two computed numbers and `totalResults`
with the literal text `-` and ` of ` between them. -/
def rangeText (props : Props) (activePage : Int) : String :=
  toString (rangeStart props activePage) ++ "-" ++
    toString (rangeEnd props activePage) ++ " of " ++ toString props.totalResults

/-- Text of the label `<span>`: the word `Showing`, a blank, and the range. -/
def rangeLabel (props : Props) (activePage : Int) : String :=
  "Showing " ++ rangeText props activePage

/-! ## The range label in double arithmetic -/

/-- How many low bits a double drops from the natural number `m`: the least `k`
with `m / 2 ^ k < 2 ^ 53`, searched up to `fuel`. -/
def excessBits : Nat → Nat → Nat
  | 0, _ => 0
  | fuel + 1, m => if m < 2 ^ 53 then 0 else excessBits fuel (m / 2) + 1

/-- The double nearest to the natural number `m`, ties to the even significand
(the rounding of every JavaScript arithmetic operation). A double has a 53-bit
significand, so with `u = 2 ^ excessBits 1024 m` the doubles around `m` are the
multiples of `u`. Finite doubles end below `2 ^ 1024`; overflow to `Infinity`
is not modelled. -/
def roundDoubleNat (m : Nat) : Nat :=
  let u := 2 ^ excessBits 1024 m
  let q := m / u
  let r := m % u
  if 2 * r < u then q * u
  else if u < 2 * r then (q + 1) * u
  else if q % 2 = 0 then q * u
  else (q + 1) * u

/-- The double nearest to the integer `n`; rounding is symmetric in the sign. -/
def roundDouble (n : Int) : Int :=
  if 0 ≤ n then (roundDoubleNat n.toNat : Int) else -(roundDoubleNat (-n).toNat : Int)

/-- First number of the label as the program computes it:
`activePage * resultsPerPage - resultsPerPage + 1` evaluated left to right on
doubles that hold integers, the product, the difference and the sum each
rounded to the nearest double. -/
def rangeStartDouble (props : Props) (activePage : Int) : Int :=
  roundDouble (roundDouble (roundDouble (activePage * props.resultsPerPage) -
    props.resultsPerPage) + 1)

/-- Second number of the label as the program computes it:
`Math.min` of the rounded product and `totalResults`. -/
def rangeEndDouble (props : Props) (activePage : Int) : Int :=
  min (roundDouble (activePage * props.resultsPerPage)) props.totalResults

/-! ## Reference definitions written from the specification -/

/-- The pages `1..n` in order. -/
def pagesUpTo : Nat → List PageEntry
  | 0 => []
  | n + 1 => pagesUpTo n ++ [PageEntry.page ((n : Int) + 1)]

/-- The four-branch window of the specification's `computeWindow`. -/
def computeWindow (totalPages activePage : Int) : List PageEntry :=
  if totalPages ≤ 7 then pagesUpTo totalPages.toNat
  else if activePage < 5 then
    [.page 1, .page 2, .page 3, .page 4, .page 5, .ellipsis, .page totalPages]
  else if 5 ≤ activePage ∧ activePage < totalPages - 3 then
    [.page 1, .ellipsis, .page (activePage - 1), .page activePage, .page (activePage + 1),
      .ellipsis, .page totalPages]
  else
    [.page 1, .ellipsis, .page (totalPages - 4), .page (totalPages - 3),
      .page (totalPages - 2), .page (totalPages - 1), .page totalPages]

/-- The page numbers of a window, left to right, ellipses dropped. -/
def numericEntries : List PageEntry → List Int
  | [] => []
  | .page n :: rest => n :: numericEntries rest
  | .ellipsis :: rest => numericEntries rest

/-! ## The page count -/

theorem fdiv_neg_neg (a b : Int) : Int.fdiv (-a) (-b) = Int.fdiv a b := by
  rcases a with (_|m)|m <;> rcases b with (_|n)|n <;>
    first | rfl | exact (Int.fdiv_zero _).trans (Int.fdiv_zero _).symm

theorem floor_div_eq_fdiv (a b : Int) (hb : b ≠ 0) : ⌊(a : ℚ) / (b : ℚ)⌋ = Int.fdiv a b := by
  rcases lt_or_gt_of_ne hb with h | h
  · obtain ⟨n, hn⟩ := Int.eq_ofNat_of_zero_le (show 0 ≤ -b by omega)
    have hb' : b = -(n : Int) := by omega
    rw [← fdiv_neg_neg, hn, Int.fdiv_eq_ediv _ (by omega), ← Rat.floor_intCast_div_natCast, hb']
    congr 1
    push_cast
    rw [div_neg, neg_div]
  · obtain ⟨n, hn⟩ := Int.eq_ofNat_of_zero_le (show 0 ≤ b by omega)
    rw [Int.fdiv_eq_ediv _ (by omega), hn, ← Rat.floor_intCast_div_natCast]
    simp

/-- For a non-zero page size `TOTAL_PAGES` is the ceiling of the exact quotient
`totalResults / resultsPerPage`, which is what `Math.ceil` returns. -/
theorem TOTAL_PAGES_eq_ceil (props : Props) (h : props.resultsPerPage ≠ 0) :
    TOTAL_PAGES props = ⌈(props.totalResults : ℚ) / (props.resultsPerPage : ℚ)⌉ := by
  unfold TOTAL_PAGES
  rw [← floor_div_eq_fdiv _ _ h, ← Int.ceil_neg]
  congr 1
  push_cast
  rw [neg_div, neg_neg]

theorem TOTAL_PAGES_eq_ediv (props : Props) (h : 1 ≤ props.resultsPerPage) :
    TOTAL_PAGES props = -((-props.totalResults) / props.resultsPerPage) := by
  unfold TOTAL_PAGES
  rw [Int.fdiv_eq_ediv _ (by omega)]

/-- The last page is the first one whose end reaches `totalResults`. -/
theorem TOTAL_PAGES_bounds (props : Props) (h : 1 ≤ props.resultsPerPage) :
    props.totalResults ≤ TOTAL_PAGES props * props.resultsPerPage ∧
      (TOTAL_PAGES props - 1) * props.resultsPerPage < props.totalResults := by
  rw [TOTAL_PAGES_eq_ediv props h]
  have hpos : 0 < props.resultsPerPage := by omega
  have h1 := Int.ediv_mul_le (-props.totalResults) (ne_of_gt hpos)
  have h2 := Int.lt_ediv_add_one_mul_self (-props.totalResults) hpos
  constructor <;> nlinarith

theorem TOTAL_PAGES_pos (props : Props) (h1 : 1 ≤ props.totalResults)
    (h2 : 1 ≤ props.resultsPerPage) : 1 ≤ TOTAL_PAGES props := by
  have hb := (TOTAL_PAGES_bounds props h2).1
  by_contra hlt
  have : TOTAL_PAGES props * props.resultsPerPage ≤ 0 :=
    Int.mul_nonpos_of_nonpos_of_nonneg (by omega) (by omega)
  omega

/-! ## The page window -/

theorem range_map_eq_pagesUpTo (n : Nat) :
    (List.range n).map (fun (i : Nat) => PageEntry.page ((i : Int) + 1)) = pagesUpTo n := by
  induction n with
  | zero => rfl
  | succ k ih => rw [List.range_succ, List.map_append, ih]; rfl

theorem mem_numericEntries (l : List PageEntry) (n : Int) :
    n ∈ numericEntries l ↔ PageEntry.page n ∈ l := by
  induction l with
  | nil => simp [numericEntries]
  | cons e rest ih => cases e <;> simp [numericEntries, ih]

/-- C1: for `totalPages ≥ 0` and `activePage ≥ 1` the window computed by the
page effect is the four-branch reference window of the specification; it is
empty for `totalPages = 0`, and the three scenarios `(12,1)`, `(12,6)` and
`(12,10)` give `[1,2,3,4,5,…,12]`, `[1,…,5,6,7,…,12]` and `[1,…,8,9,10,11,12]`.
The two definitions agree at every pair of integers, so the proof does not
use the range hypotheses. -/
theorem pagesEffect_eq_computeWindow (totalPages activePage : Int)
    (_htp : 0 ≤ totalPages) (_hap : 1 ≤ activePage) :
    pagesEffect totalPages activePage = computeWindow totalPages activePage ∧
      pagesEffect 0 activePage = [] ∧
      pagesEffect 12 1 =
        [.page 1, .page 2, .page 3, .page 4, .page 5, .ellipsis, .page 12] ∧
      pagesEffect 12 6 =
        [.page 1, .ellipsis, .page 5, .page 6, .page 7, .ellipsis, .page 12] ∧
      pagesEffect 12 10 =
        [.page 1, .ellipsis, .page 8, .page 9, .page 10, .page 11, .page 12] := by
  refine ⟨?_, ?_, by decide, by decide, by decide⟩
  · unfold pagesEffect computeWindow MAX_VISIBLE_PAGES
    rw [range_map_eq_pagesUpTo]
  · simp [pagesEffect, MAX_VISIBLE_PAGES]

theorem pagesEffect_eq_computeWindow_witness :
    (0 : Int) ≤ 12 ∧ (1 : Int) ≤ 6 ∧
      pagesEffect 12 6 = computeWindow 12 6 :=
  ⟨by decide, by decide, (pagesEffect_eq_computeWindow 12 6 (by decide) (by decide)).1⟩

theorem numericEntries_map_page (f : Nat → Int) (l : List Nat) :
    numericEntries (l.map (fun (i : Nat) => PageEntry.page (f i))) = l.map f := by
  induction l with
  | nil => rfl
  | cons a rest ih => simp only [List.map_cons, numericEntries, ih]

theorem page_mem_range_map (n : Nat) (k : Int) :
    PageEntry.page k ∈ (List.range n).map (fun (i : Nat) => PageEntry.page ((i : Int) + 1)) ↔
      1 ≤ k ∧ k ≤ n := by
  simp only [List.mem_map, List.mem_range, PageEntry.page.injEq]
  constructor
  · rintro ⟨i, hi, rfl⟩
    omega
  · intro h
    exact ⟨(k - 1).toNat, by omega, by omega⟩

/-- C2: for `totalPages ≥ 1` and `1 ≤ activePage ≤ totalPages` the computed
window has at most 7 entries and contains page 1, page `totalPages` and
`activePage` as numeric entries. -/
theorem pagesEffect_length_and_members (totalPages activePage : Int)
    (htp : 1 ≤ totalPages) (hlo : 1 ≤ activePage) (hhi : activePage ≤ totalPages) :
    (pagesEffect totalPages activePage).length ≤ 7 ∧
      PageEntry.page 1 ∈ pagesEffect totalPages activePage ∧
      PageEntry.page totalPages ∈ pagesEffect totalPages activePage ∧
      PageEntry.page activePage ∈ pagesEffect totalPages activePage := by
  unfold pagesEffect MAX_VISIBLE_PAGES
  split_ifs with h1 h2 h3
  · simp only [page_mem_range_map, List.length_map, List.length_range]
    omega
  · simp
    omega
  · simp
  · simp
    omega

theorem pagesEffect_length_and_members_witness :
    (1 : Int) ≤ 12 ∧ (1 : Int) ≤ 9 ∧ (9 : Int) ≤ 12 ∧
      (pagesEffect 12 9).length ≤ 7 ∧
      PageEntry.page 1 ∈ pagesEffect 12 9 ∧
      PageEntry.page 12 ∈ pagesEffect 12 9 ∧
      PageEntry.page 9 ∈ pagesEffect 12 9 :=
  ⟨by decide, by decide, by decide,
    pagesEffect_length_and_members 12 9 (by decide) (by decide) (by decide)⟩

theorem pagesEffect_sorted_and_bounds (totalPages activePage : Int) :
    (numericEntries (pagesEffect totalPages activePage)).Pairwise (fun a b => a < b) ∧
      (∀ n, PageEntry.page n ∈ pagesEffect totalPages activePage →
        1 ≤ n ∧ n ≤ totalPages) := by
  unfold pagesEffect MAX_VISIBLE_PAGES
  split_ifs with h1 h2 h3
  · refine ⟨?_, ?_⟩
    · rw [numericEntries_map_page (fun i => (i : Int) + 1), List.pairwise_map]
      exact (List.pairwise_lt_range _).imp (fun h => by omega)
    · intro n hn
      rw [page_mem_range_map] at hn
      omega
  · refine ⟨?_, ?_⟩
    · simp [numericEntries]
      omega
    · intro n hn
      simp at hn
      omega
  · refine ⟨?_, ?_⟩
    · simp [numericEntries]
      omega
    · intro n hn
      simp at hn
      omega
  · refine ⟨?_, ?_⟩
    · simp [numericEntries]
      omega
    · intro n hn
      simp at hn
      omega

/-- C3: for `totalPages ≥ 0` and any `activePage ≥ 1`, in range or not, the
numeric entries of the computed window are strictly increasing from left to
right and each lies in `[1, totalPages]`; hence no page number occurs twice and
every page button carries a page of the range. The proof does not use the two
range hypotheses: the property holds at every pair of integers. -/
theorem pagesEffect_numeric_sorted_bounded (totalPages activePage : Int)
    (_htp : 0 ≤ totalPages) (_hap : 1 ≤ activePage) :
    (numericEntries (pagesEffect totalPages activePage)).Pairwise (fun a b => a < b) ∧
      (∀ n, n ∈ numericEntries (pagesEffect totalPages activePage) →
        1 ≤ n ∧ n ≤ totalPages) ∧
      (numericEntries (pagesEffect totalPages activePage)).Nodup ∧
      (∀ n, PageEntry.page n ∈ pagesEffect totalPages activePage →
        1 ≤ n ∧ n ≤ totalPages) := by
  have key := pagesEffect_sorted_and_bounds totalPages activePage
  refine ⟨key.1, ?_, ?_, key.2⟩
  · intro n hn
    exact key.2 n ((mem_numericEntries _ _).1 hn)
  · exact key.1.imp (fun h => ne_of_lt h)

theorem pagesEffect_numeric_sorted_bounded_witness :
    (0 : Int) ≤ 12 ∧ (1 : Int) ≤ 40 ∧
      (numericEntries (pagesEffect 12 40)).Pairwise (fun a b => a < b) ∧
      (∀ n, n ∈ numericEntries (pagesEffect 12 40) → 1 ≤ n ∧ n ≤ 12) ∧
      (numericEntries (pagesEffect 12 40)).Nodup ∧
      (∀ n, PageEntry.page n ∈ pagesEffect 12 40 → 1 ≤ n ∧ n ≤ 12) :=
  ⟨by decide, by decide, pagesEffect_numeric_sorted_bounded 12 40 (by decide) (by decide)⟩

/-! ## Transitions -/

theorem dispatch_activePage (totalPages : Int) (s : State) (update : Option Int) :
    (dispatch totalPages s update).1.activePage = update.getD s.activePage := by
  cases update with
  | none => rfl
  | some v =>
    simp only [dispatch, runEffects, Option.getD_some]
    split_ifs <;> rfl

theorem dispatch_calls (totalPages : Int) (s : State) (update : Option Int) :
    (dispatch totalPages s update).2 =
      if update.getD s.activePage = s.activePage then [] else [update.getD s.activePage] := by
  cases update with
  | none => simp [dispatch]
  | some v =>
    simp only [dispatch, runEffects, Option.getD_some, Option.some.injEq]
    by_cases h : s.activePage = v
    · simp [h]
    · have h2 : ¬ v = s.activePage := fun e => h e.symm
      simp [h, h2]

theorem dispatch_pages (totalPages : Int) (s : State) (update : Option Int)
    (hs : s.pages = pagesEffect totalPages s.activePage) :
    (dispatch totalPages s update).1.pages =
      pagesEffect totalPages (dispatch totalPages s update).1.activePage := by
  cases update with
  | none => exact hs
  | some v =>
    simp only [dispatch, runEffects, Option.some.injEq]
    by_cases h : s.activePage = v
    · subst h
      simpa using hs
    · simp [h]

theorem step_eq_dispatch (totalPages : Int) (s : State) (e : Event) :
    ∃ update, step totalPages s e = dispatch totalPages s update := by
  cases e with
  | previous => exact ⟨handlePreviousClick s.activePage, rfl⟩
  | next => exact ⟨handleNextClick (LAST_PAGE totalPages) s.activePage, rfl⟩
  | jumpTo p => exact ⟨pageButtonClick p, rfl⟩

/-- While the page count stays the same, the stored `pages` is the window of
that page count and the current `activePage` in every reachable state. -/
theorem reachable_pages (totalPages : Int) (s : State) (hs : Reachable totalPages s) :
    s.pages = pagesEffect totalPages s.activePage := by
  induction hs with
  | mount => simp [mount, runEffects]
  | previous _ ih => exact dispatch_pages totalPages _ _ ih
  | next _ ih => exact dispatch_pages totalPages _ _ ih
  | jumpTo p _ _ ih => exact dispatch_pages totalPages _ _ ih

/-- C4: for every `totalPages` and `activePage`, the previous button leaves
`activePage` unchanged when it is 1 and otherwise sets it to `activePage - 1`;
the next button leaves it unchanged when it equals `totalPages` and otherwise
sets it to `activePage + 1`. -/
theorem handlePreviousClick_handleNextClick (totalPages : Int) (s : State) :
    (step totalPages s .previous).1.activePage =
        (if s.activePage = 1 then s.activePage else s.activePage - 1) ∧
      (step totalPages s .next).1.activePage =
        (if s.activePage = totalPages then s.activePage else s.activePage + 1) := by
  constructor
  · simp only [step, dispatch_activePage, handlePreviousClick, FIRST_PAGE]
    split_ifs <;> rfl
  · simp only [step, dispatch_activePage, handleNextClick, LAST_PAGE]
    split_ifs <;> rfl

theorem previous_activePage_ge (totalPages : Int) (s : State) (h : 1 ≤ s.activePage) :
    1 ≤ (step totalPages s .previous).1.activePage := by
  simp only [step, dispatch_activePage, handlePreviousClick, FIRST_PAGE]
  split_ifs <;> simp <;> omega

theorem next_activePage_ge (totalPages : Int) (s : State) (h : 1 ≤ s.activePage) :
    1 ≤ (step totalPages s .next).1.activePage := by
  simp only [step, dispatch_activePage, handleNextClick, LAST_PAGE]
  split_ifs <;> simp <;> omega

theorem previous_activePage_le (totalPages : Int) (s : State)
    (h : s.activePage ≤ totalPages) :
    (step totalPages s .previous).1.activePage ≤ totalPages := by
  simp only [step, dispatch_activePage, handlePreviousClick, FIRST_PAGE]
  split_ifs <;> simp <;> omega

theorem next_activePage_le (totalPages : Int) (s : State)
    (h : s.activePage ≤ totalPages) :
    (step totalPages s .next).1.activePage ≤ totalPages := by
  simp only [step, dispatch_activePage, handleNextClick, LAST_PAGE]
  split_ifs <;> simp <;> omega

theorem reachable_activePage_ge (totalPages : Int) (s : State)
    (hs : Reachable totalPages s) : 1 ≤ s.activePage := by
  induction hs with
  | mount => simp [mount, runEffects]
  | previous _ ih => exact previous_activePage_ge totalPages _ ih
  | next _ ih => exact next_activePage_ge totalPages _ ih
  | jumpTo p hr hp _ =>
    rw [reachable_pages totalPages _ hr] at hp
    simpa [step, dispatch_activePage, pageButtonClick] using
      ((pagesEffect_sorted_and_bounds _ _).2 p hp).1

theorem reachable_activePage_le (totalPages : Int) (htp : 1 ≤ totalPages) (s : State)
    (hs : Reachable totalPages s) : s.activePage ≤ totalPages := by
  induction hs with
  | mount => simpa [mount, runEffects] using htp
  | previous _ ih => exact previous_activePage_le totalPages _ ih
  | next _ ih => exact next_activePage_le totalPages _ ih
  | jumpTo p hr hp _ =>
    rw [reachable_pages totalPages _ hr] at hp
    simpa [step, dispatch_activePage, pageButtonClick] using
      ((pagesEffect_sorted_and_bounds _ _).2 p hp).2

/-- C5: for `totalResults ≥ 1` and `resultsPerPage ≥ 1`, with
`totalPages = ceil(totalResults / resultsPerPage)`, every state reachable from
mount (`activePage = 1`) by previous, next and clicks on a rendered page button
has `1 ≤ activePage ≤ totalPages`; in each such state the rendered buttons are
those of the window computed for the current state. -/
theorem reachable_activePage_in_range (props : Props)
    (h1 : 1 ≤ props.totalResults) (h2 : 1 ≤ props.resultsPerPage)
    (s : State) (hs : Reachable (TOTAL_PAGES props) s) :
    1 ≤ s.activePage ∧ s.activePage ≤ TOTAL_PAGES props ∧
      s.pages = pagesEffect (TOTAL_PAGES props) s.activePage :=
  ⟨reachable_activePage_ge _ s hs,
    reachable_activePage_le _ (TOTAL_PAGES_pos props h1 h2) s hs,
    reachable_pages _ s hs⟩

theorem reachable_activePage_in_range_witness :
    (1 : Int) ≤ 115 ∧ (1 : Int) ≤ 10 ∧
      TOTAL_PAGES ⟨115, 10⟩ = 12 ∧
      Reachable (TOTAL_PAGES ⟨115, 10⟩)
        ⟨[.page 1, .ellipsis, .page 8, .page 9, .page 10, .page 11, .page 12], 11⟩ ∧
      ((1 : Int) ≤ 11 ∧ 11 ≤ TOTAL_PAGES ⟨115, 10⟩ ∧
        [.page 1, .ellipsis, .page 8, .page 9, .page 10, .page 11, .page 12] =
          pagesEffect (TOTAL_PAGES ⟨115, 10⟩) 11) :=
  have hr : Reachable (TOTAL_PAGES ⟨115, 10⟩)
      ⟨[.page 1, .ellipsis, .page 8, .page 9, .page 10, .page 11, .page 12], 11⟩ :=
    Reachable.previous (Reachable.jumpTo 12 Reachable.mount (by decide))
  ⟨by decide, by decide, by decide, hr,
    reachable_activePage_in_range ⟨115, 10⟩ (by decide) (by decide) _ hr⟩

theorem navReachable_activePage_ge (totalPages : Int) (s : State)
    (hs : NavReachable totalPages s) : 1 ≤ s.activePage := by
  induction hs with
  | mount => simp [mount, runEffects]
  | previous _ ih => exact previous_activePage_ge totalPages _ ih
  | next _ ih => exact next_activePage_ge totalPages _ ih

theorem navReachable_activePage_le (totalPages : Int) (htp : 1 ≤ totalPages)
    (s : State) (hs : NavReachable totalPages s) : s.activePage ≤ totalPages := by
  induction hs with
  | mount => simpa [mount, runEffects] using htp
  | previous _ ih => exact previous_activePage_le totalPages _ ih
  | next _ ih => exact next_activePage_le totalPages _ ih

/-- A previous click whose target would be below 1 changes nothing, whatever
the page count. -/
theorem navReachable_previous_noop (totalPages : Int) (s : State)
    (hs : NavReachable totalPages s) (h : s.activePage - 1 < 1) :
    step totalPages s .previous = (s, []) := by
  have hge := navReachable_activePage_ge totalPages s hs
  have h1 : s.activePage = 1 := by omega
  simp [step, handlePreviousClick, FIRST_PAGE, h1, dispatch]

/-- With at least one page, a next click whose target would exceed the page
count changes nothing. -/
theorem navReachable_next_noop (totalPages : Int) (htp : 1 ≤ totalPages)
    (s : State) (hs : NavReachable totalPages s)
    (h : totalPages < s.activePage + 1) : step totalPages s .next = (s, []) := by
  have hle := navReachable_activePage_le totalPages htp s hs
  have h1 : s.activePage = totalPages := by omega
  simp [step, handleNextClick, LAST_PAGE, h1, dispatch]

/-- C6: with `totalResults = 0` and `resultsPerPage = 10` there are 0 pages and
the component mounts on page 1, so the target 2 of a next click exceeds the
page count; the click is nevertheless not a no-op: `handleNextClick` compares
with equality only, `activePage` becomes 2 and `onChange(2)` is called. -/
theorem next_beyond_range_when_no_results :
    TOTAL_PAGES ⟨0, 10⟩ = 0 ∧
      NavReachable (TOTAL_PAGES ⟨0, 10⟩) (mount (TOTAL_PAGES ⟨0, 10⟩)).1 ∧
      (mount (TOTAL_PAGES ⟨0, 10⟩)).1 = ⟨[], 1⟩ ∧
      TOTAL_PAGES ⟨0, 10⟩ < (mount (TOTAL_PAGES ⟨0, 10⟩)).1.activePage + 1 ∧
      step (TOTAL_PAGES ⟨0, 10⟩) (mount (TOTAL_PAGES ⟨0, 10⟩)).1 .next = (⟨[], 2⟩, [2]) :=
  ⟨by decide, NavReachable.mount, by decide, by decide, by decide⟩

/-- C7: the label shows `start = activePage * resultsPerPage - resultsPerPage + 1`
and `end = min (activePage * resultsPerPage) totalResults`, so the displayed end
never exceeds `totalResults`; for `totalResults = 25`, `resultsPerPage = 10`,
`activePage = 3` the range reads `21-25 of 25`, shown after the word `Showing`.
The clamp and the two numbers of the scenario are the same when the
expressions are evaluated in doubles. -/
theorem rangeLabel_start_end (props : Props) (activePage : Int) :
    rangeStart props activePage =
        activePage * props.resultsPerPage - props.resultsPerPage + 1 ∧
      rangeEnd props activePage = min (activePage * props.resultsPerPage) props.totalResults ∧
      rangeEnd props activePage ≤ props.totalResults ∧
      rangeText props activePage =
        toString (activePage * props.resultsPerPage - props.resultsPerPage + 1) ++ "-" ++
          toString (min (activePage * props.resultsPerPage) props.totalResults) ++ " of " ++
          toString props.totalResults ∧
      rangeText ⟨25, 10⟩ 3 = "21-25 of 25" ∧
      rangeLabel ⟨25, 10⟩ 3 = "Showing 21-25 of 25" ∧
      rangeEndDouble props activePage ≤ props.totalResults ∧
      rangeStartDouble ⟨25, 10⟩ 3 = 21 ∧
      rangeEndDouble ⟨25, 10⟩ 3 = 25 :=
  ⟨rfl, rfl, min_le_right _ _, rfl, by decide, by decide, min_le_right _ _, by decide,
    by decide⟩

/-- C8: mount calls `onChange` exactly once, with 1; a previous, next or
page-button click that changes `activePage` calls it exactly once, with the new
`activePage`; a click that leaves `activePage` unchanged calls it not at all,
in particular previous on page 1 and next on the last page. -/
theorem onChange_calls (totalPages : Int) (s : State) (e : Event) :
    (mount totalPages).1.activePage = 1 ∧ (mount totalPages).2 = [1] ∧
      ((step totalPages s e).1.activePage ≠ s.activePage →
        (step totalPages s e).2 = [(step totalPages s e).1.activePage]) ∧
      ((step totalPages s e).1.activePage = s.activePage → (step totalPages s e).2 = []) ∧
      (s.activePage = 1 → step totalPages s .previous = (s, [])) ∧
      (s.activePage = totalPages → step totalPages s .next = (s, [])) := by
  refine ⟨by simp [mount, runEffects], by simp [mount, runEffects], ?_, ?_, ?_, ?_⟩
  · obtain ⟨u, hu⟩ := step_eq_dispatch totalPages s e
    rw [hu, dispatch_calls, dispatch_activePage]
    intro h
    simp [h]
  · obtain ⟨u, hu⟩ := step_eq_dispatch totalPages s e
    rw [hu, dispatch_calls, dispatch_activePage]
    intro h
    simp [h]
  · intro h
    simp [step, handlePreviousClick, FIRST_PAGE, h, dispatch]
  · intro h
    simp [step, handleNextClick, LAST_PAGE, h, dispatch]

theorem onChange_calls_witness :
    (step 12 ⟨pagesEffect 12 1, 1⟩ (.jumpTo 5)).1.activePage ≠ 1 ∧
      (step 12 ⟨pagesEffect 12 1, 1⟩ (.jumpTo 5)).2 = [5] ∧
      (step 12 ⟨pagesEffect 12 12, 12⟩ .next).1.activePage = 12 ∧
      (step 12 ⟨pagesEffect 12 12, 12⟩ .next).2 = [] ∧
      step 12 ⟨pagesEffect 12 1, 1⟩ .previous = (⟨pagesEffect 12 1, 1⟩, []) :=
  ⟨by decide,
    (onChange_calls 12 ⟨pagesEffect 12 1, 1⟩ (.jumpTo 5)).2.2.1 (by decide),
    by decide,
    (onChange_calls 12 ⟨pagesEffect 12 12, 12⟩ .next).2.2.2.1 (by decide),
    (onChange_calls 12 ⟨pagesEffect 12 1, 1⟩ .previous).2.2.2.2.1 rfl⟩

/-- C9: the component mounts with `totalResults = 120`, `resultsPerPage = 10`
(12 pages) and is then re-rendered with `totalResults = 30` (3 pages). The
effect depends on `activePage` only and does not run again, so the stored
`pages` is still `[1,2,3,4,5,…,12]`, not the window `[1,2,3]` of the current
page count and active page. -/
theorem pages_stale_after_props_change :
    TOTAL_PAGES ⟨120, 10⟩ = 12 ∧ TOTAL_PAGES ⟨30, 10⟩ = 3 ∧
      (mount (TOTAL_PAGES ⟨120, 10⟩)).1 =
        ⟨[.page 1, .page 2, .page 3, .page 4, .page 5, .ellipsis, .page 12], 1⟩ ∧
      rerender (TOTAL_PAGES ⟨30, 10⟩) (mount (TOTAL_PAGES ⟨120, 10⟩)).1 =
        (⟨[.page 1, .page 2, .page 3, .page 4, .page 5, .ellipsis, .page 12], 1⟩, []) ∧
      pagesEffect (TOTAL_PAGES ⟨30, 10⟩) 1 = [.page 1, .page 2, .page 3] ∧
      computeWindow (TOTAL_PAGES ⟨30, 10⟩) 1 = [.page 1, .page 2, .page 3] ∧
      (rerender (TOTAL_PAGES ⟨30, 10⟩) (mount (TOTAL_PAGES ⟨120, 10⟩)).1).1.pages ≠
        pagesEffect (TOTAL_PAGES ⟨30, 10⟩)
          (rerender (TOTAL_PAGES ⟨30, 10⟩) (mount (TOTAL_PAGES ⟨120, 10⟩)).1).1.activePage :=
  ⟨by decide, by decide, by decide, by decide, by decide, by decide, by decide⟩

/-! ## Double rounding -/

theorem excessBits_spec (fuel m : Nat) (h : m < 2 ^ (53 + fuel)) :
    m / 2 ^ excessBits fuel m < 2 ^ 53 := by
  induction fuel generalizing m with
  | zero => simpa [excessBits] using h
  | succ f ih =>
    rw [excessBits]
    split_ifs with hm
    · simpa using hm
    · have h2 : m / 2 < 2 ^ (53 + f) := by
        rw [Nat.div_lt_iff_lt_mul (by decide)]
        calc m < 2 ^ (53 + (f + 1)) := h
          _ = 2 ^ (53 + f) * 2 := by rw [← Nat.add_assoc, Nat.pow_succ]
      have := ih (m / 2) h2
      rwa [Nat.pow_succ, Nat.mul_comm, ← Nat.div_div_eq_div_mul]

theorem excessBits_minimal (fuel m : Nat) (h : 2 ^ 53 ≤ m) (hf : 0 < fuel) :
    2 ^ 52 ≤ m / 2 ^ excessBits fuel m := by
  induction fuel generalizing m with
  | zero => omega
  | succ f ih =>
    rw [excessBits, if_neg (by omega)]
    have e : 2 ^ (excessBits f (m / 2) + 1) = 2 * 2 ^ excessBits f (m / 2) := by
      rw [Nat.pow_succ, Nat.mul_comm]
    rw [e, ← Nat.div_div_eq_div_mul]
    cases f with
    | zero =>
      simp only [excessBits, pow_zero, Nat.div_one]
      omega
    | succ g =>
      rcases Nat.lt_or_ge (m / 2) (2 ^ 53) with hlt | hge
      · rw [excessBits, if_pos hlt]
        simp only [pow_zero, Nat.div_one]
        omega
      · exact ih (m / 2) hge (Nat.succ_pos g)

/-- The rounded value is a multiple of the unit and lies within half a unit of
the argument. -/
theorem roundDoubleNat_near (m : Nat) :
    2 ^ excessBits 1024 m ∣ roundDoubleNat m ∧
      2 * roundDoubleNat m ≤ 2 * m + 2 ^ excessBits 1024 m ∧
      2 * m ≤ 2 * roundDoubleNat m + 2 ^ excessBits 1024 m := by
  have hdm := Nat.div_add_mod m (2 ^ excessBits 1024 m)
  have hlt := Nat.mod_lt m (Nat.two_pow_pos (excessBits 1024 m))
  have hs : (m / 2 ^ excessBits 1024 m + 1) * 2 ^ excessBits 1024 m =
      m / 2 ^ excessBits 1024 m * 2 ^ excessBits 1024 m + 2 ^ excessBits 1024 m := by
    rw [Nat.add_mul, Nat.one_mul]
  have hc : 2 ^ excessBits 1024 m * (m / 2 ^ excessBits 1024 m) =
      m / 2 ^ excessBits 1024 m * 2 ^ excessBits 1024 m := Nat.mul_comm _ _
  unfold roundDoubleNat
  simp only
  split_ifs <;> refine ⟨Dvd.intro_left _ rfl, ?_, ?_⟩ <;> omega

theorem roundDoubleNat_eq_self (m : Nat) (h : m < 2 ^ 53) : roundDoubleNat m = m := by
  have hx : excessBits 1024 m = 0 := by
    show excessBits (1023 + 1) m = 0
    rw [excessBits, if_pos h]
  unfold roundDoubleNat
  simp only [hx, pow_zero, Nat.mod_one, Nat.div_one, Nat.mul_one]
  simp

/-- A non-negative integer below `2 ^ 53` is a double: rounding leaves it alone. -/
theorem roundDouble_eq_self (n : Int) (h0 : 0 ≤ n) (h : n < 2 ^ 53) : roundDouble n = n := by
  unfold roundDouble
  rw [if_pos h0, roundDoubleNat_eq_self _ (by omega)]
  omega

/-! ## The ranges of the label -/

/-- Over the integers the ranges of pages `1..totalPages` partition
`1..totalResults`. -/
theorem range_partition_exact (props : Props) (h2 : 1 ≤ props.resultsPerPage) :
    rangeStart props 1 = 1 ∧
      rangeEnd props (TOTAL_PAGES props) = props.totalResults ∧
      (∀ a : Int, 1 ≤ a → a < TOTAL_PAGES props →
        rangeStart props (a + 1) = rangeEnd props a + 1) ∧
      (∀ a : Int, 1 ≤ a → a ≤ TOTAL_PAGES props →
        1 ≤ rangeStart props a ∧ rangeStart props a ≤ rangeEnd props a ∧
          rangeEnd props a ≤ props.totalResults) := by
  obtain ⟨hub, hlb⟩ := TOTAL_PAGES_bounds props h2
  unfold rangeStart rangeEnd
  refine ⟨by ring, min_eq_right hub, ?_, ?_⟩
  · intro a _ ha
    have hmul : a * props.resultsPerPage ≤ (TOTAL_PAGES props - 1) * props.resultsPerPage :=
      mul_le_mul_of_nonneg_right (by omega) (by omega)
    rw [min_eq_left (by omega)]
    ring
  · intro a ha1 ha2
    have hmul : (a - 1) * props.resultsPerPage ≤ (TOTAL_PAGES props - 1) * props.resultsPerPage :=
      mul_le_mul_of_nonneg_right (by omega) (by omega)
    have hnn : 0 ≤ (a - 1) * props.resultsPerPage := mul_nonneg (by omega) (by omega)
    have he : (a - 1) * props.resultsPerPage =
        a * props.resultsPerPage - props.resultsPerPage := by ring
    refine ⟨by omega, le_min (by omega) (by omega), min_le_right _ _⟩

/-- While `totalResults + resultsPerPage ≤ 2 ^ 53`, no operation of the label
rounds on a page of the range: the doubles shown are the integer values. -/
theorem rangeDouble_eq_exact (props : Props)
    (h2 : 1 ≤ props.resultsPerPage)
    (h3 : props.totalResults + props.resultsPerPage ≤ 2 ^ 53)
    (a : Int) (ha1 : 1 ≤ a) (ha2 : a ≤ TOTAL_PAGES props) :
    rangeStartDouble props a = rangeStart props a ∧
      rangeEndDouble props a = rangeEnd props a := by
  obtain ⟨_, hlb⟩ := TOTAL_PAGES_bounds props h2
  have hmul : (a - 1) * props.resultsPerPage ≤ (TOTAL_PAGES props - 1) * props.resultsPerPage :=
    mul_le_mul_of_nonneg_right (by omega) (by omega)
  have hnn : 0 ≤ (a - 1) * props.resultsPerPage := mul_nonneg (by omega) (by omega)
  have he : (a - 1) * props.resultsPerPage =
      a * props.resultsPerPage - props.resultsPerPage := by ring
  have hp : (2 : Int) ^ 53 = 9007199254740992 := by norm_num
  rw [hp] at h3
  have r1 : roundDouble (a * props.resultsPerPage) = a * props.resultsPerPage :=
    roundDouble_eq_self _ (by omega) (by rw [hp]; omega)
  have r2 : roundDouble (a * props.resultsPerPage - props.resultsPerPage) =
      a * props.resultsPerPage - props.resultsPerPage :=
    roundDouble_eq_self _ (by omega) (by rw [hp]; omega)
  have r3 : roundDouble (a * props.resultsPerPage - props.resultsPerPage + 1) =
      a * props.resultsPerPage - props.resultsPerPage + 1 :=
    roundDouble_eq_self _ (by omega) (by rw [hp]; omega)
  unfold rangeStartDouble rangeEndDouble rangeStart rangeEnd
  rw [r1, r2, r3]
  exact ⟨rfl, rfl⟩

/-- C10, as stated, fails on the program: with `totalResults = 2 ^ 53 - 1` and
`resultsPerPage = 3002399751580331`, both held exactly by a double, there are
3 pages; the product `3 * resultsPerPage = 2 ^ 53 + 1` rounds to `2 ^ 53`, so
page 3 shows the start 6004799503160662, which is the end shown on page 2 and
not that end plus one, and not the integer value 6004799503160663. -/
theorem range_partition_fails_on_rounded_product :
    (1 : Int) ≤ 9007199254740991 ∧ (1 : Int) ≤ 3002399751580331 ∧
      TOTAL_PAGES ⟨9007199254740991, 3002399751580331⟩ = 3 ∧
      roundDouble (3 * 3002399751580331) = 9007199254740992 ∧
      rangeEndDouble ⟨9007199254740991, 3002399751580331⟩ 2 = 6004799503160662 ∧
      rangeStartDouble ⟨9007199254740991, 3002399751580331⟩ 3 = 6004799503160662 ∧
      rangeStart ⟨9007199254740991, 3002399751580331⟩ 3 = 6004799503160663 ∧
      ¬ (∀ a : Int, 1 ≤ a → a < TOTAL_PAGES ⟨9007199254740991, 3002399751580331⟩ →
        rangeStartDouble ⟨9007199254740991, 3002399751580331⟩ (a + 1) =
          rangeEndDouble ⟨9007199254740991, 3002399751580331⟩ a + 1) :=
  ⟨by decide, by decide, by decide, by decide, by decide, by decide, by decide,
    fun h => absurd (h 2 (by decide) (by decide)) (by decide)⟩

/-- C10, amended: for `totalResults ≥ 1` and `resultsPerPage ≥ 1` with
`totalResults + resultsPerPage ≤ 2 ^ 53`, the ranges the label shows on pages
`1..totalPages` partition `1..totalResults`: the first starts at 1, the last
ends at `totalResults`, each page below the last is followed by one that starts
right after its end, on every page of the range
`1 ≤ start ≤ end ≤ totalResults`, and the numbers shown are
`activePage * resultsPerPage - resultsPerPage + 1` and
`min (activePage * resultsPerPage) totalResults` without rounding. -/
theorem range_partition (props : Props)
    (h1 : 1 ≤ props.totalResults) (h2 : 1 ≤ props.resultsPerPage)
    (h3 : props.totalResults + props.resultsPerPage ≤ 2 ^ 53) :
    rangeStartDouble props 1 = 1 ∧
      rangeEndDouble props (TOTAL_PAGES props) = props.totalResults ∧
      (∀ a : Int, 1 ≤ a → a < TOTAL_PAGES props →
        rangeStartDouble props (a + 1) = rangeEndDouble props a + 1) ∧
      (∀ a : Int, 1 ≤ a → a ≤ TOTAL_PAGES props →
        1 ≤ rangeStartDouble props a ∧ rangeStartDouble props a ≤ rangeEndDouble props a ∧
          rangeEndDouble props a ≤ props.totalResults) ∧
      (∀ a : Int, 1 ≤ a → a ≤ TOTAL_PAGES props →
        rangeStartDouble props a =
            a * props.resultsPerPage - props.resultsPerPage + 1 ∧
          rangeEndDouble props a = min (a * props.resultsPerPage) props.totalResults) := by
  have hpos := TOTAL_PAGES_pos props h1 h2
  obtain ⟨e1, e2, e3, e4⟩ := range_partition_exact props h2
  have hd := rangeDouble_eq_exact props h2 h3
  refine ⟨?_, ?_, ?_, ?_, ?_⟩
  · rw [(hd 1 (le_refl 1) hpos).1, e1]
  · rw [(hd _ hpos (le_refl _)).2, e2]
  · intro a ha1 ha2
    rw [(hd (a + 1) (by omega) (by omega)).1, (hd a ha1 (by omega)).2]
    exact e3 a ha1 ha2
  · intro a ha1 ha2
    rw [(hd a ha1 ha2).1, (hd a ha1 ha2).2]
    exact e4 a ha1 ha2
  · intro a ha1 ha2
    exact hd a ha1 ha2

theorem range_partition_witness :
    (1 : Int) ≤ 25 ∧ (1 : Int) ≤ 10 ∧ (25 : Int) + 10 ≤ 2 ^ 53 ∧
      (rangeStartDouble ⟨25, 10⟩ 1 = 1 ∧
        rangeEndDouble ⟨25, 10⟩ (TOTAL_PAGES ⟨25, 10⟩) = 25 ∧
        (∀ a : Int, 1 ≤ a → a < TOTAL_PAGES ⟨25, 10⟩ →
          rangeStartDouble ⟨25, 10⟩ (a + 1) = rangeEndDouble ⟨25, 10⟩ a + 1) ∧
        (∀ a : Int, 1 ≤ a → a ≤ TOTAL_PAGES ⟨25, 10⟩ →
          1 ≤ rangeStartDouble ⟨25, 10⟩ a ∧
            rangeStartDouble ⟨25, 10⟩ a ≤ rangeEndDouble ⟨25, 10⟩ a ∧
            rangeEndDouble ⟨25, 10⟩ a ≤ 25) ∧
        (∀ a : Int, 1 ≤ a → a ≤ TOTAL_PAGES ⟨25, 10⟩ →
          rangeStartDouble ⟨25, 10⟩ a = a * 10 - 10 + 1 ∧
            rangeEndDouble ⟨25, 10⟩ a = min (a * 10) 25)) :=
  ⟨by decide, by decide, by decide,
    range_partition ⟨25, 10⟩ (by decide) (by decide) (by decide)⟩

end Pagination
